import Mathlib

/-!
Shallow embedding of the gammapy map-making pipeline
(`gammapy/cube/make.py`: `MapMaker`, `MapMakerObs`, `MapMakerRing`,
`_check_selection`) together with the external geometry / map / IRF
capabilities it consumes.

Modelling choices:
* Sky positions live on an integer lattice; angular separation is the
  Chebyshev (L-infinity) distance, so a pointing with maximum offset `r`
  sees exactly the box of half-width `r` around it.
* A geometry is a rectangle of spatial pixels plus an optional energy
  axis (`nE = none` models an image geometry without an energy axis).
* A map carries a geometry, a unit and a rational-valued data function;
  all constructors keep the data equal to zero outside the geometry.
* Fallible operations (cutout, validation, construction) return
  `Except`; the `try/except NoOverlapError` control flow of the Python
  loops becomes an explicit match on the cutout result.
-/

/-- A sky position on the integer lattice. -/
structure Pos where
  x : Int
  y : Int
deriving DecidableEq

/-- Angular separation between two sky positions (Chebyshev distance),
modelling `SkyCoord.separation`. -/
def sep (a b : Pos) : Nat :=
  max (a.x - b.x).natAbs (a.y - b.y).natAbs

/-- Physical units occurring in the pipeline: the dimensionless unit `""`
used for counts and background maps, and the area-time unit `"m2 s"`
used for exposure maps. -/
inductive MUnit where
  | dimensionless
  | m2s
deriving DecidableEq

/-- Conversion factor used by `quantity.to_value(unit)`.  In the pipeline
the source and target units always agree (factor 1); an incompatible
conversion, which would raise in astropy, is modelled as contributing
nothing. -/
def convFactor (src dst : MUnit) : ℚ :=
  if src = dst then 1 else 0

/-- Modelled from the spec: the external `WcsGeom` geometry abstraction
(`gammapy.maps`, not under `src/`): a spatial rectangle of pixels plus an
optional energy axis. `isWcs = false` models a geometry object of an
unsupported type. -/
structure Geom where
  isWcs : Bool
  x0 : Int
  y0 : Int
  nx : Nat
  ny : Nat
  nE : Option Nat
deriving DecidableEq

/-- `geom.is_image`: true when the geometry carries no energy axis. -/
def Geom.isImage (g : Geom) : Bool :=
  g.nE.isNone

/-- Number of bins along the non-spatial axes (an image geometry has a
single implicit plane). -/
def Geom.nbins (g : Geom) : Nat :=
  g.nE.getD 1

/-- Spatial membership of a position in the geometry's pixel rectangle. -/
def Geom.containsB (g : Geom) (p : Pos) : Bool :=
  decide (g.x0 ≤ p.x) && decide (p.x < g.x0 + (g.nx : Int)) &&
  decide (g.y0 ≤ p.y) && decide (p.y < g.y0 + (g.ny : Int))

/-- Membership of an (energy bin, position) pair in the geometry. -/
def inGeomE (g : Geom) (e : Nat) (p : Pos) : Bool :=
  g.containsB p && decide (e < g.nbins)

/-- Cutout modes of the geometry service: `trim` clips the requested box
to the parent geometry, `strict` requires full containment. -/
inductive CutMode where
  | trim
  | strict
deriving DecidableEq

/-- Overlap failure signals raised by the geometry service
(`NoOverlapError`, `PartialOverlapError`). -/
inductive OverlapError where
  | noOverlap
  | partOverlap
deriving DecidableEq

/-- Modelled from the spec: `geom.cutout(position, width=2*r, mode)` of
the external geometry service.  The requested box is the square of
half-width `r` centred on `pos`.  In `trim` mode the box is intersected
with the parent and a no-overlap signal is raised when the intersection
is empty; in `strict` mode a no-overlap signal is raised when the box and
the parent are disjoint and a partial-overlap signal when the box is not
fully contained. -/
def Geom.cutout (g : Geom) (pos : Pos) (r : Nat) (mode : CutMode) :
    Except OverlapError Geom :=
  let bx0 : Int := pos.x - r
  let bx1 : Int := pos.x + r
  let by0 : Int := pos.y - r
  let by1 : Int := pos.y + r
  let gx1 : Int := g.x0 + g.nx - 1
  let gy1 : Int := g.y0 + g.ny - 1
  match mode with
  | .trim =>
    let ix0 := max bx0 g.x0
    let ix1 := min bx1 gx1
    let iy0 := max by0 g.y0
    let iy1 := min by1 gy1
    if ix0 ≤ ix1 ∧ iy0 ≤ iy1 then
      .ok { g with x0 := ix0, y0 := iy0,
                   nx := (ix1 - ix0 + 1).toNat, ny := (iy1 - iy0 + 1).toNat }
    else
      .error .noOverlap
  | .strict =>
    if bx1 < g.x0 ∨ gx1 < bx0 ∨ by1 < g.y0 ∨ gy1 < by0 then
      .error .noOverlap
    else if g.x0 ≤ bx0 ∧ bx1 ≤ gx1 ∧ g.y0 ≤ by0 ∧ by1 ≤ gy1 then
      .ok { g with x0 := bx0, y0 := by0, nx := 2 * r + 1, ny := 2 * r + 1 }
    else
      .error .partOverlap

/-- A map: data bound to a geometry together with a physical unit
(`gammapy.maps.Map`).  Data is kept equal to zero outside the geometry by
every constructor below. -/
structure GMap where
  geom : Geom
  unit : MUnit
  data : Nat → Pos → ℚ

/-- `Map.from_geom(geom, unit)`: a zero-filled map. -/
def GMap.fromGeom (g : Geom) (u : MUnit) : GMap :=
  ⟨g, u, fun _ _ => 0⟩

/-- Modelled from the spec: `Map.cutout`, restricting a map to the cutout
of its geometry (used for the exclusion mask). -/
def GMap.cutout (m : GMap) (pos : Pos) (r : Nat) (mode : CutMode) :
    Except OverlapError GMap :=
  match m.geom.cutout pos r mode with
  | .error e => .error e
  | .ok cg => .ok ⟨cg, m.unit, fun e p => if inGeomE cg e p then m.data e p else 0⟩

/-- Modelled from the spec: `Map.fill_by_coord(coords, values)` where
`coords` enumerates the pixels of `coordsGeom` and `values` are the data
of `src` converted to the unit of the target: additive accumulation at
the coordinates shared by the coordinate set and the target geometry. -/
def GMap.fillFrom (tgt : GMap) (coordsGeom : Geom) (src : GMap) : GMap :=
  { tgt with data := fun e p =>
      tgt.data e p +
        (if inGeomE coordsGeom e p && inGeomE tgt.geom e p then
          convFactor src.unit tgt.unit * src.data e p
        else 0) }

/-- `map.data[..., fov_mask] = 0`: zero all pixels whose separation from
the pointing reaches the maximum offset, in every energy plane. -/
def applyFov (m : GMap) (pointing : Pos) (offsetMax : Nat) : GMap :=
  { m with data := fun e p =>
      if decide (offsetMax ≤ sep p pointing) then 0 else m.data e p }

/-- Modelled from the spec: `Map.sum_over_axes(keepdims)` of the external
map service, summing the data over the non-spatial axes.  With
`keepdims = true` the energy axis is kept with a single bin, otherwise it
is removed. -/
def GMap.sumOverAxes (m : GMap) (keepdims : Bool) : GMap :=
  ⟨{ m.geom with nE := if keepdims then some 1 else none }, m.unit,
   fun e p =>
     if decide (e = 0) && m.geom.containsB p then
       ((List.range m.geom.nbins).map (fun i => m.data i p)).sum
     else 0⟩

/-- Modelled from the spec: `map.slice_by_idx({"energy": 0})` and
`map.get_image_by_idx([0])`: the first energy plane as an image map. -/
def GMap.sliceEnergy0 (m : GMap) : GMap :=
  ⟨{ m.geom with nE := none }, m.unit,
   fun e p => if decide (e = 0) && m.geom.containsB p then m.data 0 p else 0⟩

/-- Modelled from the spec: `_map_spectrum_weight(map, spectrum)`
(`gammapy.cube.exposure`, not under `src/`): reweights an exposure map by
a spectral model before the energy-axis collapse.  `none` selects the
default power-law spectrum, modelled by weight 1 in each bin. -/
def spectrumWeight (m : GMap) (spectrum : Option (Nat → ℚ)) : GMap :=
  { m with data := fun e p =>
      if inGeomE m.geom e p then m.data e p * (spectrum.getD (fun _ => 1)) e
      else 0 }

/-- A named map set (a Python `dict` from product name to map, preserving
insertion order). -/
def MapSet := List (String × GMap)

/-- Dictionary lookup. -/
def MapSet.get : MapSet → String → Option GMap
  | [], _ => none
  | (k, v) :: rest, n => if k = n then some v else MapSet.get rest n

/-- Dictionary assignment `d[k] = v`: replaces in place when the key is
present, appends otherwise. -/
def MapSet.set : MapSet → String → GMap → MapSet
  | [], n, v => [(n, v)]
  | (k, w) :: rest, n, v =>
    if k = n then (n, v) :: rest else (k, w) :: MapSet.set rest n v

/-- Dictionary deletion of (the first entry with) a key, as done by
`dict.pop`. -/
def MapSet.remove : MapSet → String → MapSet
  | [], _ => []
  | (k, w) :: rest, n => if k = n then rest else (k, w) :: MapSet.remove rest n

/-- `dict.update(other)`: assign every entry of `other` in order. -/
def MapSet.update (base other : MapSet) : MapSet :=
  other.foldl (fun acc kv => acc.set kv.1 kv.2) base

/-- Value of the map stored under a name at an (energy bin, position)
pair, with 0 for an absent key. -/
def dataAt (ms : MapSet) (n : String) (e : Nat) (p : Pos) : ℚ :=
  match ms.get n with
  | some g => g.data e p
  | none => 0

/-- Geometry and unit of the map stored under a name. -/
def keyShape (ms : MapSet) (n : String) : Option (Geom × MUnit) :=
  (ms.get n).map (fun g => (g.geom, g.unit))

/-- Whether an `Except` value is an error. -/
def exceptIsError {α β : Type} : Except α β → Bool
  | .error _ => true
  | .ok _ => false

/-- The dynamically typed `selection` argument of `run`: `None`, a bare
string, or a list of strings. -/
inductive SelArg where
  | noneA
  | strA (s : String)
  | listA (l : List String)

/-- Validation errors of `_check_selection`: the `TypeError` for a
non-list argument and the `ValueError` naming an unavailable key. -/
inductive SelError where
  | typeErr (msg : String)
  | valueErr (name : String)
deriving DecidableEq

/-- The fixed set of available products. -/
def available : List String := ["counts", "exposure", "background"]

/-- `_check_selection(selection)`: `None` becomes the list of all
available products; a non-list argument raises a `TypeError`; a list
containing a name outside the available set raises a `ValueError` naming
the first such key. -/
def checkSelection (selArg : SelArg) : Except SelError (List String) :=
  let validate : List String → Except SelError (List String) := fun l =>
    match l.find? (fun n => !(available.contains n)) with
    | some bad => .error (.valueErr bad)
    | none => .ok l
  match selArg with
  | .noneA => validate available
  | .strA _ => .error (.typeErr "Selection must be a list of str")
  | .listA l => validate l

/-- An observation: pointing direction, event list (energy bin and
position per event), live time, on-time, and the IRF lookup tables
(effective area and background rate as functions of energy bin and of
the position offset from the pointing). -/
structure Observation where
  obsId : Nat
  pointing : Pos
  events : List (Nat × Pos)
  livetime : ℚ
  ontime : ℚ
  aeff : Nat → Pos → ℚ
  bkg : Nat → Pos → ℚ

/-- Modelled from the spec: `fill_map_counts(counts, events)`
(`gammapy.cube.counts`, not under `src/`): bin the event list into a
zero-filled map on the geometry by coordinate. -/
def fillMapCounts (g : Geom) (events : List (Nat × Pos)) : GMap :=
  ⟨g, .dimensionless, fun e p =>
    if inGeomE g e p then
      ((events.filter (fun ev => decide (ev.1 = e) && decide (ev.2 = p))).length : ℚ)
    else 0⟩

/-- Modelled from the spec: `make_map_exposure_true_energy(pointing,
livetime, aeff, geom)` (`gammapy.cube.exposure`, not under `src/`):
exposure from the effective area at the offset from the pointing times
the live time, in area-time units, on the true-energy geometry. -/
def makeMapExposureTrueEnergy (pointing : Pos) (livetime : ℚ)
    (aeff : Nat → Pos → ℚ) (g : Geom) : GMap :=
  ⟨g, .m2s, fun e p =>
    if inGeomE g e p then aeff e ⟨p.x - pointing.x, p.y - pointing.y⟩ * livetime
    else 0⟩

/-- Modelled from the spec: `make_map_background_irf(pointing, ontime,
bkg, geom)` (`gammapy.cube.background`, not under `src/`): background
rate at the offset from the pointing times the on-time, on the reco
geometry. -/
def makeMapBackgroundIrf (pointing : Pos) (ontime : ℚ)
    (bkg : Nat → Pos → ℚ) (g : Geom) : GMap :=
  ⟨g, .dimensionless, fun e p =>
    if inGeomE g e p then bkg e ⟨p.x - pointing.x, p.y - pointing.y⟩ * ontime
    else 0⟩

/-- `MapMakerObs`: maps for a single observation on a cutout geometry. -/
structure MapMakerObs where
  observation : Observation
  geom : Geom
  geom_true : Geom
  offset_max : Nat
  exclusion_mask : Option GMap

/-- `MapMakerObs._make_counts`: bin the events on the reco geometry and
zero the pixels flagged by the reco field-of-view mask. -/
def MapMakerObs.makeCounts (om : MapMakerObs) : GMap :=
  applyFov (fillMapCounts om.geom om.observation.events)
    om.observation.pointing om.offset_max

/-- `MapMakerObs._make_exposure`: exposure on the true-energy geometry,
with the true-energy field-of-view mask applied. -/
def MapMakerObs.makeExposure (om : MapMakerObs) : GMap :=
  applyFov
    (makeMapExposureTrueEnergy om.observation.pointing
      om.observation.livetime om.observation.aeff om.geom_true)
    om.observation.pointing om.offset_max

/-- `MapMakerObs._make_background`: background on the reco geometry, with
the reco field-of-view mask applied. -/
def MapMakerObs.makeBackground (om : MapMakerObs) : GMap :=
  applyFov
    (makeMapBackgroundIrf om.observation.pointing om.observation.ontime
      om.observation.bkg om.geom)
    om.observation.pointing om.offset_max

/-- The dispatch `getattr(self, "_make_" + name)` over a product name;
`none` models the attribute error for an unknown name (unreachable after
selection validation). -/
def MapMakerObs.makeOne (om : MapMakerObs) (name : String) : Option GMap :=
  if name = "counts" then some om.makeCounts
  else if name = "exposure" then some om.makeExposure
  else if name = "background" then some om.makeBackground
  else none

/-- The body of `MapMakerObs.run` after selection validation: build the
map for each selected name in order and store it under that name. -/
def MapMakerObs.runSel (om : MapMakerObs) (sel : List String) : MapSet :=
  sel.foldl
    (fun acc n =>
      match om.makeOne n with
      | some mp => acc.set n mp
      | none => acc)
    []

/-- `MapMakerObs.run(selection)`: validate the selection, then build the
selected maps. -/
def MapMakerObs.run (om : MapMakerObs) (selArg : SelArg) : Except SelError MapSet :=
  match checkSelection selArg with
  | .error e => .error e
  | .ok sel => .ok (om.runSel sel)

/-- `MapMaker`: stacks per-observation maps onto a reference geometry. -/
structure MapMaker where
  geom : Geom
  geom_true : Geom
  offset_max : Nat
  exclusion_mask : Option GMap

/-- `MapMaker.__init__(geom, offset_max, geom_true=None,
exclusion_mask=None)`: reject a non-`WcsGeom` geometry, then reject an
image geometry; on success the true-energy geometry defaults to the reco
geometry. -/
def MapMaker.init (geom : Geom) (offset_max : Nat) (geom_true : Option Geom)
    (exclusion_mask : Option GMap) : Except String MapMaker :=
  if geom.isWcs = false then
    .error "MapMaker only works with WcsGeom"
  else if geom.isImage = true then
    .error "MapMaker only works with geom with an energy axis"
  else
    .ok ⟨geom, geom_true.getD geom, offset_max, exclusion_mask⟩

/-- The zero-filled map allocated for a product name by
`_get_empty_maps`: the exact name `"exposure"` gets the true-energy
geometry with area-time units, every other name the reco geometry with
the dimensionless unit. -/
def MapMaker.emptyFor (m : MapMaker) (name : String) : GMap :=
  if name = "exposure" then GMap.fromGeom m.geom_true .m2s
  else GMap.fromGeom m.geom .dimensionless

/-- `MapMaker._get_empty_maps(selection)`. -/
def MapMaker.getEmptyMaps (m : MapMaker) (sel : List String) : MapSet :=
  sel.foldl (fun acc name => acc.set name (m.emptyFor name)) []

/-- `MapMaker._get_obs_maker(obs, mode)`: cutout of the reco geometry,
of the true-energy geometry and of the exclusion mask (when present)
around the observation's pointing, then a `MapMakerObs` over the
cutouts.  Any overlap signal propagates to the caller. -/
def MapMaker.getObsMaker (m : MapMaker) (obs : Observation) (mode : CutMode) :
    Except OverlapError MapMakerObs :=
  match m.geom.cutout obs.pointing m.offset_max mode with
  | .error e => .error e
  | .ok cg =>
    match m.geom_true.cutout obs.pointing m.offset_max mode with
    | .error e => .error e
    | .ok cgt =>
      match m.exclusion_mask with
      | none => .ok ⟨obs, cg, cgt, m.offset_max, none⟩
      | some ex =>
        match ex.cutout obs.pointing m.offset_max mode with
        | .error e => .error e
        | .ok ce => .ok ⟨obs, cg, cgt, m.offset_max, some ce⟩

/-- One accumulation `maps[name].fill_by_coord(coords, data)` of
`MapMaker.run`: the per-observation map under `name`, converted to the
output map's unit, is added by coordinate; the exposure product uses the
true-energy cutout coordinates, every other product the reco cutout
coordinates. -/
def MapMaker.fillOne (om : MapMakerObs) (mapsObs : MapSet) (maps : MapSet)
    (name : String) : MapSet :=
  match maps.get name, mapsObs.get name with
  | some tgt, some src =>
    maps.set name
      (tgt.fillFrom (if name = "exposure" then om.geom_true else om.geom) src)
  | some _, none => maps
  | none, _ => maps

/-- One iteration of the observation loop of `MapMaker.run`: a
no-overlap signal from the cutout is caught and the observation skipped;
a partial-overlap signal is not caught there and propagates; otherwise
the per-observation maps are built and accumulated for each selected
name. -/
def MapMaker.runStep (m : MapMaker) (sel : List String) (maps : MapSet)
    (obs : Observation) : Except OverlapError MapSet :=
  match m.getObsMaker obs .trim with
  | .error .noOverlap => .ok maps
  | .error .partOverlap => .error .partOverlap
  | .ok om => .ok (sel.foldl (MapMaker.fillOne om (om.runSel sel)) maps)

/-- The observation loop of `MapMaker.run`. -/
def MapMaker.runLoop (m : MapMaker) (sel : List String) :
    List Observation → MapSet → Except OverlapError MapSet
  | [], maps => .ok maps
  | obs :: rest, maps =>
    match m.runStep sel maps obs with
    | .error e => .error e
    | .ok maps' => m.runLoop sel rest maps'

/-- `MapMaker.run` after selection validation: allocate the empty output
maps and loop over the observations. -/
def MapMaker.runAux (m : MapMaker) (obsList : List Observation)
    (sel : List String) : Except OverlapError MapSet :=
  m.runLoop sel obsList (m.getEmptyMaps sel)

/-- Errors that can escape `MapMaker.run`: a selection-validation error
or an uncaught overlap signal. -/
inductive RunError where
  | selErr (e : SelError)
  | overlapErr (e : OverlapError)
deriving DecidableEq

/-- `MapMaker.run(observations, selection)`: validate the selection,
allocate the output maps, process every observation in order. -/
def MapMaker.run (m : MapMaker) (obsList : List Observation)
    (selArg : SelArg) : Except RunError MapSet :=
  match checkSelection selArg with
  | .error e => .error (.selErr e)
  | .ok sel =>
    match m.runAux obsList sel with
    | .error e => .error (.overlapErr e)
    | .ok maps => .ok maps

/-- The map set produced by a successful `MapMaker.run` (empty for a
failed run; used to state pixel-level properties without `Except`
destructuring). -/
def MapMaker.runMaps (m : MapMaker) (obsList : List Observation)
    (selArg : SelArg) : MapSet :=
  match m.run obsList selArg with
  | .ok s => s
  | .error _ => []

/-- The per-map transformation of `MapMaker._maps_sum_over_axes`: weight
the exposure map by the spectrum, slice an exclusion mask to its first
energy plane, then sum over the energy axis. -/
def transformImage (spectrum : Option (Nat → ℚ)) (keepdims : Bool)
    (name : String) (mp : GMap) : GMap :=
  let mp1 := if name = "exposure" then spectrumWeight mp spectrum else mp
  let mp2 := if name = "exclusion" then mp1.sliceEnergy0 else mp1
  mp2.sumOverAxes keepdims

/-- `MapMaker._maps_sum_over_axes(maps, spectrum, keepdims)`: the
transformation applied to every entry, keeping names and order. -/
def mapsSumOverAxes (maps : MapSet) (spectrum : Option (Nat → ℚ))
    (keepdims : Bool) : MapSet :=
  maps.map (fun nm => (nm.1, transformImage spectrum keepdims nm.1 nm.2))

/-- Plain summation of every map of a set over its remaining non-spatial
axes (used to state the collapse idempotence property). -/
def mapsSumAll (maps : MapSet) : MapSet :=
  maps.map (fun nm => (nm.1, nm.2.sumOverAxes false))

/-- Errors that can escape `MapMaker.run_images`: the missing-prior-state
validation error, or an error of the inner `run` call. -/
inductive RunImagesError where
  | missingObservations
  | runFailed (e : RunError)

/-- `MapMaker.run_images(observations, spectrum, keepdims)` with the
`self._maps` attribute made explicit: `saved = none` models an instance
on which `run` has not executed.  Returns the images together with the
new value of the stored map set. -/
def MapMaker.runImagesSt (m : MapMaker) (saved : Option MapSet)
    (observations : Option (List Observation)) (spectrum : Option (Nat → ℚ))
    (keepdims : Bool) : Except RunImagesError (MapSet × Option MapSet) :=
  match saved with
  | some ms => .ok (mapsSumOverAxes ms spectrum keepdims, some ms)
  | none =>
    match observations with
    | none => .error .missingObservations
    | some obsList =>
      match m.run obsList .noneA with
      | .error e => .error (.runFailed e)
      | .ok maps => .ok (mapsSumOverAxes maps spectrum keepdims, some maps)

/-- `MapMakerRing`: on/off map making with a pluggable ring background
estimator.  The estimator is an opaque capability taking and returning a
map set. -/
structure MapMakerRing where
  geom : Geom
  geom_true : Geom
  offset_max : Nat
  exclusion_mask : Option GMap
  backgroundEstimator : MapSet → MapSet

/-- The `MapMaker` view of a ring maker (the inherited state). -/
def MapMakerRing.toMapMaker (r : MapMakerRing) : MapMaker :=
  ⟨r.geom, r.geom_true, r.offset_max, r.exclusion_mask⟩

/-- `MapMakerRing.__init__(geom, offset_max, exclusion_mask,
background_estimator)`: delegates to the `MapMaker` constructor with
`geom_true=None`. -/
def MapMakerRing.init (geom : Geom) (offset_max : Nat)
    (exclusion_mask : Option GMap) (est : MapSet → MapSet) :
    Except String MapMakerRing :=
  match MapMaker.init geom offset_max none exclusion_mask with
  | .error e => .error e
  | .ok mm => .ok ⟨mm.geom, mm.geom_true, mm.offset_max, mm.exclusion_mask, est⟩

/-- The fixed output key set of `MapMakerRing._run`. -/
def ringSelection : List String := ["on", "exposure_on", "off", "exposure_off"]

/-- Store the exclusion-mask cutout under the `"exclusion"` key
(`maps_obs["exclusion"] = obs_maker.exclusion_mask`); a maker without an
exclusion mask (a `None` value in the dict) is modelled as an absent
entry. -/
def setExclusion (ms : MapSet) (excl : Option GMap) : MapSet :=
  match excl with
  | some ex => ms.set "exclusion" ex
  | none => ms

/-- One iteration of the observation loop of `MapMakerRing._run`: a
strict-mode cutout, with both the no-overlap and the partial-overlap
signal caught and the observation skipped; otherwise the default
selection is built, the exclusion cutout attached, the per-observation
set optionally collapsed over energy, the background estimator applied,
its `"background"`/`"counts"` keys remapped to
`"exposure_on"`/`"on"`, and the four output keys accumulated by
coordinate. -/
def MapMakerRing.ringStep (r : MapMakerRing) (sumOverAxis : Bool)
    (spectrum : Option (Nat → ℚ)) (keepdims : Bool) (maps : MapSet)
    (obs : Observation) : MapSet :=
  match r.toMapMaker.getObsMaker obs .strict with
  | .error _ => maps
  | .ok om =>
    let mapsObs1 := setExclusion (om.runSel available) om.exclusion_mask
    let mapsObs2 :=
      if sumOverAxis then
        setExclusion (mapsSumOverAxes mapsObs1 spectrum keepdims)
          ((om.exclusion_mask).map GMap.sliceEnergy0)
      else mapsObs1
    let mapsObs3 := mapsObs2.update (r.backgroundEstimator mapsObs2)
    let mapsObs4 :=
      match mapsObs3.get "background" with
      | some b => (mapsObs3.remove "background").set "exposure_on" b
      | none => mapsObs3
    let mapsObs5 :=
      match mapsObs4.get "counts" with
      | some c => (mapsObs4.remove "counts").set "on" c
      | none => mapsObs4
    ringSelection.foldl
      (fun mp name =>
        match mp.get name, mapsObs5.get name with
        | some tgt, some src => mp.set name (tgt.fillFrom src.geom src)
        | some _, none => mp
        | none, _ => mp)
      maps

/-- `MapMakerRing._run(observations, sum_over_axis, spectrum, keepdims)`:
allocate the four output maps, optionally collapse them over energy,
then loop over the observations with strict cutouts. -/
def MapMakerRing.runAux (r : MapMakerRing) (observations : List Observation)
    (sumOverAxis : Bool) (spectrum : Option (Nat → ℚ)) (keepdims : Bool) :
    MapSet :=
  let maps0 := r.toMapMaker.getEmptyMaps ringSelection
  let maps1 := if sumOverAxis then mapsSumOverAxes maps0 spectrum keepdims else maps0
  observations.foldl (r.ringStep sumOverAxis spectrum keepdims) maps1

/-- `MapMakerRing.run(observations)`: per-energy-bin on/off maps. -/
def MapMakerRing.run (r : MapMakerRing) (observations : List Observation) :
    MapSet :=
  r.runAux observations false none false

/-- `MapMakerRing.run_images(observations, spectrum, keepdims)`: on/off
maps collapsed over the energy axis. -/
def MapMakerRing.runImages (r : MapMakerRing) (observations : List Observation)
    (spectrum : Option (Nat → ℚ)) (keepdims : Bool) : MapSet :=
  r.runAux observations true spectrum keepdims

lemma MapSet.get_set_same (ms : MapSet) (n : String) (v : GMap) :
    (ms.set n v).get n = some v := by
  induction ms with
  | nil => simp [MapSet.set, MapSet.get]
  | cons kv rest ih =>
    obtain ⟨k, w⟩ := kv
    by_cases h : k = n
    · simp [MapSet.set, MapSet.get, h]
    · simp [MapSet.set, MapSet.get, h, ih]

lemma MapSet.get_set_other (ms : MapSet) (n n' : String) (v : GMap)
    (h : n' ≠ n) : (ms.set n v).get n' = ms.get n' := by
  induction ms with
  | nil => simp [MapSet.set, MapSet.get, Ne.symm h]
  | cons kv rest ih =>
    obtain ⟨k, w⟩ := kv
    by_cases hk : k = n
    · subst hk
      simp [MapSet.set, MapSet.get, Ne.symm h]
    · by_cases hk' : k = n'
      · simp [MapSet.set, MapSet.get, hk, hk', h]
      · simp [MapSet.set, MapSet.get, hk, hk', ih]

lemma foldl_set_get (f : String → GMap) (n : String) :
    ∀ (sel : List String) (ms : MapSet),
      (sel.foldl (fun acc k => acc.set k (f k)) ms).get n
        = if n ∈ sel then some (f n) else ms.get n := by
  intro sel
  induction sel with
  | nil => intro ms; simp
  | cons x xs ih =>
    intro ms
    by_cases hx : n = x
    · subst hx
      by_cases hmem : n ∈ xs
      · simp [List.foldl_cons, ih, hmem]
      · simp [List.foldl_cons, ih, hmem, MapSet.get_set_same]
    · by_cases hmem : n ∈ xs
      · simp [List.foldl_cons, ih, hmem, hx]
      · simp [List.foldl_cons, ih, hmem, hx,
          MapSet.get_set_other _ _ _ _ hx]

lemma getEmptyMaps_get (m : MapMaker) (sel : List String) (n : String) :
    (m.getEmptyMaps sel).get n
      = if n ∈ sel then some (m.emptyFor n) else none := by
  simpa [MapMaker.getEmptyMaps, MapSet.get] using
    foldl_set_get (m.emptyFor) n sel []

lemma Geom.cutout_trim_ne_part (g : Geom) (pos : Pos) (r : Nat) :
    g.cutout pos r .trim ≠ .error .partOverlap := by
  unfold Geom.cutout
  dsimp only
  split <;> simp

lemma gmapCutout_trim_ne_part (m : GMap) (pos : Pos) (r : Nat) :
    m.cutout pos r .trim ≠ .error .partOverlap := by
  unfold GMap.cutout
  cases h : m.geom.cutout pos r .trim with
  | error e =>
    dsimp only
    intro hc
    injection hc with he
    subst he
    exact Geom.cutout_trim_ne_part m.geom pos r h
  | ok cg => simp

lemma getObsMaker_trim_ne_part (m : MapMaker) (obs : Observation) :
    m.getObsMaker obs .trim ≠ .error .partOverlap := by
  unfold MapMaker.getObsMaker
  cases h1 : m.geom.cutout obs.pointing m.offset_max .trim with
  | error e =>
    dsimp only
    intro hc
    injection hc with he
    subst he
    exact Geom.cutout_trim_ne_part m.geom obs.pointing m.offset_max h1
  | ok cg =>
    cases h2 : m.geom_true.cutout obs.pointing m.offset_max .trim with
    | error e =>
      dsimp only
      intro hc
      injection hc with he
      subst he
      exact Geom.cutout_trim_ne_part m.geom_true obs.pointing m.offset_max h2
    | ok cgt =>
      cases hex : m.exclusion_mask with
      | none => simp
      | some ex =>
        cases h3 : ex.cutout obs.pointing m.offset_max .trim with
        | error e =>
          simp only [h3]
          intro hc
          injection hc with he
          subst he
          exact gmapCutout_trim_ne_part ex obs.pointing m.offset_max h3
        | ok ce => simp [h3]

lemma Geom.cutout_ok_sep {g : Geom} {pos : Pos} {r : Nat} {mode : CutMode}
    {cg : Geom} (h : g.cutout pos r mode = .ok cg) {p : Pos}
    (hp : cg.containsB p = true) : sep p pos ≤ r := by
  cases mode with
  | trim =>
    unfold Geom.cutout at h
    dsimp only at h
    split at h
    · rename_i hcond
      injection h with hcg
      subst hcg
      simp only [Geom.containsB, Bool.and_eq_true, decide_eq_true_eq] at hp
      obtain ⟨⟨⟨h1, h2⟩, h3⟩, h4⟩ := hp
      obtain ⟨hcx, hcy⟩ := hcond
      simp only [sep, Nat.max_le]
      constructor <;> omega
    · exact absurd h (by simp)
  | strict =>
    unfold Geom.cutout at h
    dsimp only at h
    split at h
    · exact absurd h (by simp)
    · split at h
      · injection h with hcg
        subst hcg
        simp only [Geom.containsB, Bool.and_eq_true, decide_eq_true_eq] at hp
        obtain ⟨⟨⟨h1, h2⟩, h3⟩, h4⟩ := hp
        simp only [sep, Nat.max_le]
        constructor <;> omega
      · exact absurd h (by simp)

lemma getObsMaker_ok_inv {m : MapMaker} {obs : Observation} {mode : CutMode}
    {om : MapMakerObs} (h : m.getObsMaker obs mode = .ok om) :
    m.geom.cutout obs.pointing m.offset_max mode = .ok om.geom ∧
    m.geom_true.cutout obs.pointing m.offset_max mode = .ok om.geom_true ∧
    om.observation = obs ∧ om.offset_max = m.offset_max := by
  unfold MapMaker.getObsMaker at h
  cases h1 : m.geom.cutout obs.pointing m.offset_max mode with
  | error e => simp only [h1] at h; exact absurd h (by simp)
  | ok cg =>
    simp only [h1] at h
    cases h2 : m.geom_true.cutout obs.pointing m.offset_max mode with
    | error e => simp only [h2] at h; exact absurd h (by simp)
    | ok cgt =>
      simp only [h2] at h
      cases hex : m.exclusion_mask with
      | none =>
        simp only [hex] at h
        injection h with hom
        subst hom
        exact ⟨rfl, rfl, rfl, rfl⟩
      | some ex =>
        simp only [hex] at h
        cases h3 : ex.cutout obs.pointing m.offset_max mode with
        | error e => simp only [h3] at h; exact absurd h (by simp)
        | ok ce =>
          simp only [h3] at h
          injection h with hom
          subst hom
          exact ⟨rfl, rfl, rfl, rfl⟩

lemma sep_comm (a b : Pos) : sep a b = sep b a := by
  simp only [sep]
  omega

lemma sep_triangle (a b c : Pos) : sep a c ≤ sep a b + sep b c := by
  simp only [sep]
  omega

/-- Number of occurrences of a name in a selection list. -/
def countName (n : String) : List String → Nat
  | [] => 0
  | x :: xs => (if x = n then 1 else 0) + countName n xs

/-- The per-coordinate contribution a single accumulation adds under a
key, as a function of the per-observation map set and of the target's
geometry and unit. -/
def contribTerm (om : MapMakerObs) (mapsObs : MapSet) (G : Geom) (U : MUnit)
    (n : String) (e : Nat) (p : Pos) : ℚ :=
  match mapsObs.get n with
  | none => 0
  | some src =>
    if inGeomE (if n = "exposure" then om.geom_true else om.geom) e p &&
        inGeomE G e p then
      convFactor src.unit U * src.data e p
    else 0

lemma fillOne_keyShape (om : MapMakerObs) (mapsObs ms : MapSet)
    (n' n : String) :
    keyShape (MapMaker.fillOne om mapsObs ms n') n = keyShape ms n := by
  unfold MapMaker.fillOne
  cases h1 : ms.get n' with
  | none => rfl
  | some tgt =>
    cases h2 : mapsObs.get n' with
    | none => rfl
    | some src =>
      by_cases hn : n = n'
      · subst hn
        simp [keyShape, MapSet.get_set_same, GMap.fillFrom, h1]
      · simp [keyShape, MapSet.get_set_other _ _ _ _ hn]

lemma fillOne_dataAt (om : MapMakerObs) (mapsObs ms : MapSet)
    (n' n : String) (tgt : GMap) (e : Nat) (p : Pos)
    (h : ms.get n = some tgt) :
    dataAt (MapMaker.fillOne om mapsObs ms n') n e p
      = dataAt ms n e p +
        (if n' = n then contribTerm om mapsObs tgt.geom tgt.unit n e p else 0) := by
  by_cases hn : n' = n
  · subst hn
    unfold MapMaker.fillOne
    rw [h]
    cases h2 : mapsObs.get n' with
    | none => simp [dataAt, contribTerm, h2, h]
    | some src =>
      simp only [dataAt, contribTerm, h2, MapSet.get_set_same, h,
        GMap.fillFrom, if_pos rfl, if_true]
  · unfold MapMaker.fillOne
    cases h1 : ms.get n' with
    | none => simp [hn]
    | some tgt' =>
      cases h2 : mapsObs.get n' with
      | none => simp [hn]
      | some src =>
        simp [dataAt, MapSet.get_set_other _ _ _ _ (Ne.symm hn), hn]

lemma foldl_fillOne_keyShape (om : MapMakerObs) (mapsObs : MapSet)
    (n : String) :
    ∀ (sel : List String) (ms : MapSet),
      keyShape (sel.foldl (MapMaker.fillOne om mapsObs) ms) n = keyShape ms n := by
  intro sel
  induction sel with
  | nil => intro ms; rfl
  | cons x xs ih =>
    intro ms
    rw [List.foldl_cons, ih, fillOne_keyShape]

lemma foldl_fillOne_dataAt (om : MapMakerObs) (mapsObs : MapSet)
    (n : String) (e : Nat) (p : Pos) :
    ∀ (sel : List String) (ms : MapSet) (tgt : GMap),
      ms.get n = some tgt →
      dataAt (sel.foldl (MapMaker.fillOne om mapsObs) ms) n e p
        = dataAt ms n e p +
          (countName n sel : ℚ) * contribTerm om mapsObs tgt.geom tgt.unit n e p := by
  intro sel
  induction sel with
  | nil => intro ms tgt h; simp [countName]
  | cons x xs ih =>
    intro ms tgt h
    rw [List.foldl_cons]
    have hshape : keyShape (MapMaker.fillOne om mapsObs ms x) n = keyShape ms n :=
      fillOne_keyShape om mapsObs ms x n
    rw [keyShape, keyShape, h] at hshape
    cases h1 : (MapMaker.fillOne om mapsObs ms x).get n with
    | none => rw [h1] at hshape; simp at hshape
    | some tgt' =>
      rw [h1] at hshape
      simp only [Option.map_some'] at hshape
      injection hshape with hsh
      have hgeom : tgt'.geom = tgt.geom := congrArg Prod.fst hsh
      have hunit : tgt'.unit = tgt.unit := congrArg Prod.snd hsh
      rw [ih (MapMaker.fillOne om mapsObs ms x) tgt' h1, hgeom, hunit,
        fillOne_dataAt om mapsObs ms x n tgt e p h]
      simp only [countName]
      by_cases hx : x = n
      · simp [hx]
        ring
      · simp [hx]

/-- The contribution one observation adds at a coordinate under a key
during the stacking loop (zero when the observation is skipped). -/
def stepDelta (m : MapMaker) (sel : List String) (obs : Observation)
    (n : String) (G : Geom) (U : MUnit) (e : Nat) (p : Pos) : ℚ :=
  match m.getObsMaker obs .trim with
  | .error _ => 0
  | .ok om => (countName n sel : ℚ) * contribTerm om (om.runSel sel) G U n e p

lemma runStep_ok (m : MapMaker) (sel : List String) (maps : MapSet)
    (obs : Observation) :
    ∃ maps', m.runStep sel maps obs = .ok maps' := by
  unfold MapMaker.runStep
  cases h : m.getObsMaker obs .trim with
  | error e =>
    cases e with
    | noOverlap => exact ⟨maps, rfl⟩
    | partOverlap => exact absurd h (getObsMaker_trim_ne_part m obs)
  | ok om => exact ⟨_, rfl⟩

lemma runStep_keyShape {m : MapMaker} {sel : List String} {maps maps' : MapSet}
    {obs : Observation} (h : m.runStep sel maps obs = .ok maps') (n : String) :
    keyShape maps' n = keyShape maps n := by
  unfold MapMaker.runStep at h
  cases hom : m.getObsMaker obs .trim with
  | error e =>
    cases e with
    | noOverlap =>
      rw [hom] at h
      injection h with h'
      rw [← h']
    | partOverlap => exact absurd hom (getObsMaker_trim_ne_part m obs)
  | ok om =>
    rw [hom] at h
    injection h with h'
    rw [← h', foldl_fillOne_keyShape]

lemma runStep_dataAt {m : MapMaker} {sel : List String} {maps maps' : MapSet}
    {obs : Observation} {n : String} {tgt : GMap}
    (hget : maps.get n = some tgt)
    (h : m.runStep sel maps obs = .ok maps') (e : Nat) (p : Pos) :
    dataAt maps' n e p
      = dataAt maps n e p + stepDelta m sel obs n tgt.geom tgt.unit e p := by
  unfold MapMaker.runStep at h
  unfold stepDelta
  cases hom : m.getObsMaker obs .trim with
  | error err =>
    cases err with
    | noOverlap =>
      rw [hom] at h
      injection h with h'
      rw [← h']
      simp
    | partOverlap => exact absurd hom (getObsMaker_trim_ne_part m obs)
  | ok om =>
    rw [hom] at h
    injection h with h'
    rw [← h']
    exact foldl_fillOne_dataAt om (om.runSel sel) n e p sel maps tgt hget

lemma runLoop_spec (m : MapMaker) (sel : List String) (n : String)
    (e : Nat) (p : Pos) :
    ∀ (obsList : List Observation) (maps : MapSet) (tgt : GMap),
      maps.get n = some tgt →
      ∃ maps', m.runLoop sel obsList maps = .ok maps' ∧
        (∀ n', keyShape maps' n' = keyShape maps n') ∧
        dataAt maps' n e p
          = dataAt maps n e p +
            (obsList.map
              (fun obs => stepDelta m sel obs n tgt.geom tgt.unit e p)).sum := by
  intro obsList
  induction obsList with
  | nil =>
    intro maps tgt hget
    exact ⟨maps, rfl, fun _ => rfl, by simp⟩
  | cons obs rest ih =>
    intro maps tgt hget
    obtain ⟨maps1, hstep⟩ := runStep_ok m sel maps obs
    have hshape1 : ∀ n', keyShape maps1 n' = keyShape maps n' :=
      fun n' => runStep_keyShape hstep n'
    have hs := hshape1 n
    rw [keyShape, keyShape, hget] at hs
    cases h1 : maps1.get n with
    | none => rw [h1] at hs; simp at hs
    | some tgt1 =>
      rw [h1] at hs
      simp only [Option.map_some'] at hs
      injection hs with hsh
      have hgeom : tgt1.geom = tgt.geom := congrArg Prod.fst hsh
      have hunit : tgt1.unit = tgt.unit := congrArg Prod.snd hsh
      obtain ⟨maps', hloop, hshape', hdata⟩ := ih maps1 tgt1 h1
      refine ⟨maps', ?_, ?_, ?_⟩
      · unfold MapMaker.runLoop
        rw [hstep]
        exact hloop
      · intro n'
        rw [hshape' n', hshape1 n']
      · rw [hdata, hgeom, hunit, runStep_dataAt hget hstep e p]
        simp only [List.map_cons, List.sum_cons]
        ring

lemma runLoop_ok (m : MapMaker) (sel : List String) :
    ∀ (obsList : List Observation) (maps : MapSet),
      ∃ maps', m.runLoop sel obsList maps = .ok maps' := by
  intro obsList
  induction obsList with
  | nil => intro maps; exact ⟨maps, rfl⟩
  | cons obs rest ih =>
    intro maps
    obtain ⟨maps1, hstep⟩ := runStep_ok m sel maps obs
    obtain ⟨maps', hloop⟩ := ih maps1
    refine ⟨maps', ?_⟩
    unfold MapMaker.runLoop
    rw [hstep]
    exact hloop

lemma run_ne_overlapErr (m : MapMaker) (obsList : List Observation)
    (selArg : SelArg) (e : OverlapError) :
    m.run obsList selArg ≠ .error (.overlapErr e) := by
  cases hc : checkSelection selArg with
  | error se =>
    unfold MapMaker.run
    rw [hc]
    simp
  | ok sel =>
    obtain ⟨maps', hloop⟩ := runLoop_ok m sel obsList (m.getEmptyMaps sel)
    have hA : m.runAux obsList sel = .ok maps' := hloop
    unfold MapMaker.run
    rw [hc]
    dsimp only
    rw [hA]
    simp

lemma run_eq_of_sel {m : MapMaker} {selArg : SelArg} {sel : List String}
    (hsel : checkSelection selArg = .ok sel) (obsList : List Observation) :
    ∃ maps', m.runAux obsList sel = .ok maps' ∧
      m.run obsList selArg = .ok maps' ∧
      m.runMaps obsList selArg = maps' := by
  obtain ⟨maps', hloop⟩ := runLoop_ok m sel obsList (m.getEmptyMaps sel)
  have hA : m.runAux obsList sel = .ok maps' := hloop
  refine ⟨maps', hA, ?_, ?_⟩
  · unfold MapMaker.run
    rw [hsel]
    dsimp only
    rw [hA]
  · unfold MapMaker.runMaps MapMaker.run
    rw [hsel]
    dsimp only
    rw [hA]

lemma GMap.ext' {a b : GMap} (hg : a.geom = b.geom) (hu : a.unit = b.unit)
    (hd : a.data = b.data) : a = b := by
  cases a
  cases b
  simp_all

lemma containsB_setNE (g : Geom) (x : Option Nat) (p : Pos) :
    ({ g with nE := x } : Geom).containsB p = g.containsB p := rfl

lemma nbins_setNE_one (g : Geom) :
    ({ g with nE := some 1 } : Geom).nbins = 1 := rfl

lemma sumOverAxes_sumOverAxes (m : GMap) :
    (m.sumOverAxes true).sumOverAxes false = m.sumOverAxes false := by
  apply GMap.ext'
  · rfl
  · rfl
  · funext e p
    by_cases he : e = 0 <;> by_cases hc : m.geom.containsB p <;>
      simp [GMap.sumOverAxes, he, hc, List.range_succ, containsB_setNE,
        nbins_setNE_one, Geom.nbins]

lemma transformImage_sum (sp : Option (Nat → ℚ)) (n : String) (mp : GMap) :
    (transformImage sp true n mp).sumOverAxes false
      = transformImage sp false n mp := by
  unfold transformImage
  exact sumOverAxes_sumOverAxes _

lemma mapsSumAll_mapsSumOverAxes (ms : MapSet) (sp : Option (Nat → ℚ)) :
    mapsSumAll (mapsSumOverAxes ms sp true) = mapsSumOverAxes ms sp false := by
  induction ms with
  | nil => rfl
  | cons kv rest ih =>
    simp only [mapsSumAll, mapsSumOverAxes, List.map_cons, List.map_map] at ih ⊢
    rw [List.cons_eq_cons]
    exact ⟨by rw [transformImage_sum], ih⟩

lemma emptyFor_data (m : MapMaker) (n : String) (e : Nat) (p : Pos) :
    (m.emptyFor n).data e p = 0 := by
  unfold MapMaker.emptyFor GMap.fromGeom
  split <;> rfl

lemma dataAt_getEmptyMaps (m : MapMaker) (sel : List String) (n : String)
    (e : Nat) (p : Pos) : dataAt (m.getEmptyMaps sel) n e p = 0 := by
  unfold dataAt
  rw [getEmptyMaps_get]
  by_cases hmem : n ∈ sel
  · rw [if_pos hmem]
    exact emptyFor_data m n e p
  · rw [if_neg hmem]

lemma stepDelta_sep {m : MapMaker} {sel : List String} {obs : Observation}
    {n : String} {G : Geom} {U : MUnit} {e : Nat} {p : Pos}
    (h : stepDelta m sel obs n G U e p ≠ 0) :
    sep p obs.pointing ≤ m.offset_max := by
  unfold stepDelta at h
  cases hom : m.getObsMaker obs .trim with
  | error err => rw [hom] at h; simp at h
  | ok om =>
    rw [hom] at h
    dsimp only at h
    have hc : contribTerm om (om.runSel sel) G U n e p ≠ 0 := by
      intro hz
      exact h (by rw [hz]; ring)
    unfold contribTerm at hc
    cases hsrc : (om.runSel sel).get n with
    | none => rw [hsrc] at hc; simp at hc
    | some src =>
      rw [hsrc] at hc
      dsimp only at hc
      by_cases hguard :
          (inGeomE (if n = "exposure" then om.geom_true else om.geom) e p &&
            inGeomE G e p) = true
      · have hin : inGeomE (if n = "exposure" then om.geom_true else om.geom) e p
            = true := ((Bool.and_eq_true _ _).mp hguard).1
        have hcont : (if n = "exposure" then om.geom_true else om.geom).containsB p
            = true := ((Bool.and_eq_true _ _).mp hin).1
        obtain ⟨hg1, hg2, hobs, hoff⟩ := getObsMaker_ok_inv hom
        by_cases hn : n = "exposure"
        · rw [if_pos hn] at hcont
          exact Geom.cutout_ok_sep hg2 hcont
        · rw [if_neg hn] at hcont
          exact Geom.cutout_ok_sep hg1 hcont
      · rw [if_neg hguard] at hc
        exact absurd rfl hc

/-- A small reference geometry: 4 by 4 spatial pixels, 2 energy bins. -/
def geomC : Geom := ⟨true, 0, 0, 4, 4, some 2⟩

/-- An image geometry (no energy axis), rejected by the constructor. -/
def geomImg : Geom := ⟨true, 0, 0, 4, 4, none⟩

/-- C5: selection validation: `None` is replaced by all three products;
a bare string raises the type error; a list whose first invalid element
is `bad` raises the value error naming `bad`, which is indeed a member
of the list and not an available product. -/
theorem C5_selection_validation (s : String) (l : List String) (bad : String)
    (hfind : l.find? (fun n => !(available.contains n)) = some bad) :
    checkSelection .noneA = .ok ["counts", "exposure", "background"]
    ∧ checkSelection (.strA s) = .error (.typeErr "Selection must be a list of str")
    ∧ bad ∈ l ∧ bad ∉ available
    ∧ checkSelection (.listA l) = .error (.valueErr bad) := by
  refine ⟨rfl, rfl, List.mem_of_find?_eq_some hfind, ?_, ?_⟩
  · have hp := List.find?_some hfind
    simpa using hp
  · unfold checkSelection
    dsimp only
    rw [hfind]

/-- C5 witness: the concrete inputs of the claim, `selection="counts"`
and `selection=["flux"]`. -/
theorem C5_witness :
    checkSelection .noneA = .ok ["counts", "exposure", "background"]
    ∧ checkSelection (.strA "counts")
        = .error (.typeErr "Selection must be a list of str")
    ∧ "flux" ∈ ["flux"] ∧ "flux" ∉ available
    ∧ checkSelection (.listA ["flux"]) = .error (.valueErr "flux") :=
  C5_selection_validation "counts" ["flux"] "flux" (by decide)

/-- C6: the constructor fails with a validation error exactly when the
reference geometry is not a supported type or has no energy axis, and on
a valid geometry succeeds with the true-energy geometry defaulting to
the reco geometry. -/
theorem C6_constructor_validation (geom g' : Geom) (gt : Option Geom)
    (off : Nat) (excl : Option GMap)
    (h1 : geom.isWcs = true) (h2 : geom.isImage = false) :
    MapMaker.init geom off gt excl = .ok ⟨geom, gt.getD geom, off, excl⟩
    ∧ (exceptIsError (MapMaker.init g' off gt excl) = true
        ↔ (g'.isWcs = false ∨ g'.isImage = true)) := by
  constructor
  · unfold MapMaker.init
    rw [h1, h2]
    simp
  · unfold MapMaker.init
    by_cases hw : g'.isWcs = false
    · simp [hw, exceptIsError]
    · by_cases hi : g'.isImage = true
      · simp [hw, hi, exceptIsError]
      · simp [hw, hi, exceptIsError]

/-- C6 witness: a valid 4x4x2 geometry is accepted with the defaulted
true-energy geometry; an image geometry is rejected. -/
theorem C6_witness :
    MapMaker.init geomC 1 none none
      = .ok ⟨geomC, (none : Option Geom).getD geomC, 1, none⟩
    ∧ (exceptIsError (MapMaker.init geomImg 1 none none) = true
        ↔ (geomImg.isWcs = false ∨ geomImg.isImage = true)) :=
  C6_constructor_validation geomC geomImg none 1 none rfl rfl

/-- C10: only the reco geometry is validated: a `geom_true` that is
image-only or not a supported type is accepted without error, and the
error status of the constructor does not depend on `geom_true` at all. -/
theorem C10_geom_true_unvalidated (geom gt g' : Geom) (off : Nat)
    (excl : Option GMap) (_hgt : gt.isImage = true ∨ gt.isWcs = false)
    (h1 : geom.isWcs = true) (h2 : geom.isImage = false) :
    MapMaker.init geom off (some gt) excl = .ok ⟨geom, gt, off, excl⟩
    ∧ exceptIsError (MapMaker.init g' off (some gt) excl)
        = exceptIsError (MapMaker.init g' off none excl) := by
  constructor
  · unfold MapMaker.init
    rw [h1, h2]
    simp
  · unfold MapMaker.init
    by_cases hw : g'.isWcs = false
    · simp [hw, exceptIsError]
    · by_cases hi : g'.isImage = true
      · simp [hw, hi, exceptIsError]
      · simp [hw, hi, exceptIsError]

/-- C10 witness: an image-only `geom_true` is accepted by a valid reco
geometry, and swapping it for `None` does not change the error status on
an image reco geometry. -/
theorem C10_witness :
    MapMaker.init geomC 1 (some geomImg) none = .ok ⟨geomC, geomImg, 1, none⟩
    ∧ exceptIsError (MapMaker.init geomImg 1 (some geomImg) none)
        = exceptIsError (MapMaker.init geomImg 1 none none) :=
  C10_geom_true_unvalidated geomC geomImg geomImg 1 none (Or.inl rfl) rfl rfl

lemma runSel_av_counts (om : MapMakerObs) :
    (om.runSel available).get "counts" = some om.makeCounts := rfl

lemma runSel_av_exposure (om : MapMakerObs) :
    (om.runSel available).get "exposure" = some om.makeExposure := rfl

lemma runSel_av_background (om : MapMakerObs) :
    (om.runSel available).get "background" = some om.makeBackground := rfl

/-- C2: for a single observation, every pixel whose separation from the
pointing reaches the maximum offset has value exactly 0 in each of the
three products of `MapMakerObs.run` (the exposure map being masked on
the true-energy geometry, counts and background on the reco geometry). -/
theorem C2_fov_masking (om : MapMakerObs) (name : String) (e : Nat) (p : Pos)
    (hname : name ∈ available)
    (hsep : om.offset_max ≤ sep p om.observation.pointing) :
    om.run .noneA = .ok (om.runSel available)
    ∧ ((om.runSel available).get name).isSome = true
    ∧ dataAt (om.runSel available) name e p = 0 := by
  refine ⟨rfl, ?_, ?_⟩
  · simp only [available, List.mem_cons, List.not_mem_nil, or_false] at hname
    rcases hname with rfl | rfl | rfl
    · rw [runSel_av_counts]; rfl
    · rw [runSel_av_exposure]; rfl
    · rw [runSel_av_background]; rfl
  · simp only [available, List.mem_cons, List.not_mem_nil, or_false] at hname
    rcases hname with rfl | rfl | rfl
    · unfold dataAt
      rw [runSel_av_counts]
      simp [MapMakerObs.makeCounts, applyFov, hsep]
    · unfold dataAt
      rw [runSel_av_exposure]
      simp [MapMakerObs.makeExposure, applyFov, hsep]
    · unfold dataAt
      rw [runSel_av_background]
      simp [MapMakerObs.makeBackground, applyFov, hsep]

/-- A concrete observation pointing at the origin with no events. -/
def obsC : Observation := ⟨0, ⟨0, 0⟩, [], 1, 1, fun _ _ => 1, fun _ _ => 1⟩

/-- A concrete single-observation maker on the reference geometry. -/
def omC : MapMakerObs := ⟨obsC, geomC, geomC, 1, none⟩

/-- C2 witness: the pixel at (3,3) is 3 units away from the pointing at
the origin, beyond the maximum offset 1, so its counts value is 0. -/
theorem C2_witness :
    omC.run .noneA = .ok (omC.runSel available)
    ∧ ((omC.runSel available).get "counts").isSome = true
    ∧ dataAt (omC.runSel available) "counts" 0 ⟨3, 3⟩ = 0 :=
  C2_fov_masking omC "counts" 0 ⟨3, 3⟩ (by decide) (by decide)

/-- C7: `run_images` fails exactly when no prior `run` state exists and
no observations are supplied; stored state is reused without touching
the observations argument; without stored state the supplied
observations are processed by `run` first and its result collapsed. -/
theorem C7_run_images_state (m : MapMaker) (ms : MapSet)
    (obsL : List Observation) (obsArg : Option (List Observation))
    (sp : Option (Nat → ℚ)) (kd : Bool) :
    exceptIsError (m.runImagesSt none none sp kd) = true
    ∧ exceptIsError (m.runImagesSt (some ms) obsArg sp kd) = false
    ∧ exceptIsError (m.runImagesSt none (some obsL) sp kd) = false
    ∧ m.runImagesSt (some ms) obsArg sp kd
        = .ok (mapsSumOverAxes ms sp kd, some ms)
    ∧ m.runImagesSt none (some obsL) sp kd
        = .ok (mapsSumOverAxes (m.runMaps obsL .noneA) sp kd,
               some (m.runMaps obsL .noneA)) := by
  have hsel : checkSelection .noneA = .ok available := rfl
  obtain ⟨maps', hAux, hrun, hrm⟩ := run_eq_of_sel hsel obsL
  refine ⟨rfl, rfl, ?_, rfl, ?_⟩
  · unfold MapMaker.runImagesSt
    dsimp only
    rw [hrun]
    rfl
  · unfold MapMaker.runImagesSt
    dsimp only
    rw [hrun, hrm]

/-- C8: collapsing with `keepdims=True` and then summing the remaining
length-1 energy axis of every image yields exactly the images of
collapsing with `keepdims=False`, for every product key including the
spectrum-weighted exposure. -/
theorem C8_collapse_idempotent (m : MapMaker) (ms : MapSet)
    (obsArg : Option (List Observation)) (sp : Option (Nat → ℚ)) :
    Except.map (fun r => (mapsSumAll r.1, r.2))
        (m.runImagesSt (some ms) obsArg sp true)
      = m.runImagesSt (some ms) obsArg sp false := by
  unfold MapMaker.runImagesSt
  dsimp only [Except.map]
  rw [mapsSumAll_mapsSumOverAxes]

lemma ringInit_inv {g : Geom} {off : Nat} {excl : Option GMap}
    {est : MapSet → MapSet} {r : MapMakerRing}
    (h : MapMakerRing.init g off excl est = .ok r) :
    r.geom = g ∧ r.geom_true = g ∧ r.offset_max = off ∧
    r.exclusion_mask = excl := by
  unfold MapMakerRing.init MapMaker.init at h
  by_cases hw : g.isWcs = false
  · rw [if_pos hw] at h
    dsimp only at h
    exact absurd h (by simp)
  · rw [if_neg hw] at h
    by_cases hi : g.isImage = true
    · rw [if_pos hi] at h
      dsimp only at h
      exact absurd h (by simp)
    · rw [if_neg hi] at h
      dsimp only at h
      injection h with h'
      rw [← h']
      exact ⟨rfl, rfl, rfl, rfl⟩

/-- The identity background estimator, used for concrete ring makers. -/
def estC : MapSet → MapSet := fun s => s

/-- A concrete ring maker on the reference geometry. -/
def ringC : MapMakerRing := ⟨geomC, geomC, 1, none, estC⟩

/-- C1 counterexample: the map allocated by `_run` under the
`"exposure_on"` key carries the dimensionless unit, not the area-time
unit the claim requires for exposure-like keys. -/
theorem C1_counterexample :
    MapMakerRing.init geomC 1 none estC = .ok ringC
    ∧ ((ringC.runAux [] false none false).get "exposure_on").map GMap.unit
        = some MUnit.dimensionless
    ∧ MUnit.dimensionless ≠ MUnit.m2s :=
  ⟨rfl, rfl, by decide⟩

/-- C1 (amended): `_run` allocates all four output keys `"on"`,
`"exposure_on"`, `"off"`, `"exposure_off"` on the reco geometry with the
dimensionless unit, because `_get_empty_maps` special-cases only the
exact name `"exposure"`; the ring maker's true-energy geometry equals
its reco geometry, so the exposure-like keys still share the geometry of
the true-energy one, but not its unit. -/
theorem C1_ring_allocation (g : Geom) (off : Nat) (excl : Option GMap)
    (est : MapSet → MapSet) (r : MapMakerRing) (name : String)
    (hinit : MapMakerRing.init g off excl est = .ok r)
    (hname : name ∈ ringSelection) :
    r.geom_true = r.geom
    ∧ (r.runAux [] false none false).get name
        = some (GMap.fromGeom r.geom .dimensionless) := by
  obtain ⟨hg, hgt, hoff, hexcl⟩ := ringInit_inv hinit
  have hne : name ≠ "exposure" := by
    simp only [ringSelection, List.mem_cons, List.not_mem_nil, or_false] at hname
    rcases hname with rfl | rfl | rfl | rfl <;> decide
  refine ⟨by rw [hg, hgt], ?_⟩
  have hrun : r.runAux [] false none false
      = r.toMapMaker.getEmptyMaps ringSelection := rfl
  rw [hrun, getEmptyMaps_get, if_pos hname]
  unfold MapMaker.emptyFor
  rw [if_neg hne]
  rfl

/-- C1 witness: the concrete ring maker with the `"exposure_on"` key. -/
theorem C1_witness :
    ringC.geom_true = ringC.geom
    ∧ (ringC.runAux [] false none false).get "exposure_on"
        = some (GMap.fromGeom ringC.geom .dimensionless) :=
  C1_ring_allocation geomC 1 none estC ringC "exposure_on" rfl (by decide)

/-- C4: an observation whose trim cutout raises the no-overlap signal is
skipped by `MapMaker.run` with the map set unchanged and the loop
continuing, an observation whose strict cutout raises either overlap
signal is likewise skipped by `MapMakerRing._run`, and no overlap signal
ever escapes `MapMaker.run`. -/
theorem C4_overlap_skip (mm : MapMaker) (r : MapMakerRing)
    (obs obs2 : Observation) (rest : List Observation) (sel : List String)
    (maps maps2 : MapSet) (er : OverlapError) (soa : Bool)
    (sp : Option (Nat → ℚ)) (kd : Bool) (mm' : MapMaker)
    (obsList : List Observation) (selArg : SelArg) (e' : OverlapError)
    (h1 : mm.getObsMaker obs .trim = .error .noOverlap)
    (h2 : r.toMapMaker.getObsMaker obs2 .strict = .error er) :
    mm.runStep sel maps obs = .ok maps
    ∧ mm.runLoop sel (obs :: rest) maps = mm.runLoop sel rest maps
    ∧ r.ringStep soa sp kd maps2 obs2 = maps2
    ∧ r.runAux (obs2 :: rest) soa sp kd = r.runAux rest soa sp kd
    ∧ mm'.run obsList selArg ≠ .error (.overlapErr e') := by
  have hstep : mm.runStep sel maps obs = .ok maps := by
    unfold MapMaker.runStep
    rw [h1]
  have hring : ∀ ms, r.ringStep soa sp kd ms obs2 = ms := by
    intro ms
    unfold MapMakerRing.ringStep
    rw [h2]
  refine ⟨hstep, ?_, hring maps2, ?_,
    run_ne_overlapErr mm' obsList selArg e'⟩
  · simp only [MapMaker.runLoop]
    rw [hstep]
  · unfold MapMakerRing.runAux
    dsimp only
    rw [List.foldl_cons, hring]

/-- A concrete maker and observations for the skip witnesses. -/
def mmA : MapMaker := ⟨geomC, geomC, 1, none⟩

/-- An observation pointing far outside the reference geometry. -/
def obsFar : Observation := ⟨1, ⟨100, 100⟩, [], 1, 1, fun _ _ => 0, fun _ _ => 0⟩

/-- An observation whose field-of-view box only partially overlaps the
reference geometry. -/
def obsPart : Observation := ⟨2, ⟨0, 0⟩, [], 1, 1, fun _ _ => 0, fun _ _ => 0⟩

/-- C4 witness: the far observation is skipped in trim mode, the
partially overlapping one in strict (ring) mode, and a run never returns
an overlap error. -/
theorem C4_witness :
    mmA.runStep ["counts"] [] obsFar = .ok []
    ∧ mmA.runLoop ["counts"] (obsFar :: []) [] = mmA.runLoop ["counts"] [] []
    ∧ ringC.ringStep false none false [] obsPart = []
    ∧ ringC.runAux (obsPart :: []) false none false
        = ringC.runAux [] false none false
    ∧ mmA.run [] .noneA ≠ .error (.overlapErr .noOverlap) :=
  C4_overlap_skip mmA ringC obsFar obsPart [] ["counts"] [] [] .partOverlap
    false none false mmA [] .noneA .noOverlap rfl rfl

lemma runMaps_dataAt (m : MapMaker) (sel : List String) (name : String)
    (e : Nat) (p : Pos) (hsel : checkSelection (.listA sel) = .ok sel)
    (hname : name ∈ sel) (obsList : List Observation) :
    m.run obsList (.listA sel) = .ok (m.runMaps obsList (.listA sel))
    ∧ dataAt (m.runMaps obsList (.listA sel)) name e p
        = (obsList.map (fun obs =>
            stepDelta m sel obs name (m.emptyFor name).geom
              (m.emptyFor name).unit e p)).sum := by
  have hget : (m.getEmptyMaps sel).get name = some (m.emptyFor name) := by
    rw [getEmptyMaps_get, if_pos hname]
  obtain ⟨s, hAux, hrun, hrm⟩ := run_eq_of_sel hsel obsList
  obtain ⟨s', hloop, hsh, hdata⟩ :=
    runLoop_spec m sel name e p obsList (m.getEmptyMaps sel)
      (m.emptyFor name) hget
  have hA' : m.runAux obsList sel = .ok s' := hloop
  have hss : s' = s := by
    rw [hA'] at hAux
    injection hAux
  refine ⟨by rw [hrun, hrm], ?_⟩
  rw [hrm, ← hss, hdata, dataAt_getEmptyMaps, zero_add]

/-- C3: stacking is additive: for two observations the stacked map is
the pixel-wise sum of their single-observation maps, and when their
field-of-view footprints are disjoint at most one of them contributes at
any pixel (the pixel-wise union); stacking the same observation twice
yields exactly twice its single-observation map. -/
theorem C3_additive_stacking (m : MapMaker) (sel : List String)
    (o o1 o2 : Observation) (name : String) (e : Nat) (p : Pos)
    (hsel : checkSelection (.listA sel) = .ok sel)
    (hname : name ∈ sel)
    (hd : 2 * m.offset_max < sep o1.pointing o2.pointing) :
    m.run [o1, o2] (.listA sel) = .ok (m.runMaps [o1, o2] (.listA sel))
    ∧ dataAt (m.runMaps [o1, o2] (.listA sel)) name e p
        = dataAt (m.runMaps [o1] (.listA sel)) name e p
          + dataAt (m.runMaps [o2] (.listA sel)) name e p
    ∧ (dataAt (m.runMaps [o1] (.listA sel)) name e p = 0
        ∨ dataAt (m.runMaps [o2] (.listA sel)) name e p = 0)
    ∧ dataAt (m.runMaps [o, o] (.listA sel)) name e p
        = 2 * dataAt (m.runMaps [o] (.listA sel)) name e p := by
  obtain ⟨hrun12, hdata12⟩ := runMaps_dataAt m sel name e p hsel hname [o1, o2]
  obtain ⟨hrun1, hdata1⟩ := runMaps_dataAt m sel name e p hsel hname [o1]
  obtain ⟨hrun2, hdata2⟩ := runMaps_dataAt m sel name e p hsel hname [o2]
  obtain ⟨hrunoo, hdataoo⟩ := runMaps_dataAt m sel name e p hsel hname [o, o]
  obtain ⟨hruno, hdatao⟩ := runMaps_dataAt m sel name e p hsel hname [o]
  refine ⟨hrun12, ?_, ?_, ?_⟩
  · rw [hdata12, hdata1, hdata2]
    simp
  · by_cases hz1 : dataAt (m.runMaps [o1] (.listA sel)) name e p = 0
    · exact Or.inl hz1
    · right
      rw [hdata2]
      simp only [List.map_cons, List.map_nil, List.sum_cons, List.sum_nil,
        add_zero]
      by_contra hz2
      have hd1 : stepDelta m sel o1 name (m.emptyFor name).geom
          (m.emptyFor name).unit e p ≠ 0 := by
        intro hzz
        apply hz1
        rw [hdata1]
        simp [hzz]
      have hs1 : sep p o1.pointing ≤ m.offset_max := stepDelta_sep hd1
      have hs2 : sep p o2.pointing ≤ m.offset_max := stepDelta_sep hz2
      have htri := sep_triangle o1.pointing p o2.pointing
      rw [sep_comm o1.pointing p] at htri
      omega
  · rw [hdataoo, hdatao]
    simp only [List.map_cons, List.map_nil, List.sum_cons, List.sum_nil,
      add_zero]
    ring

/-- A second concrete maker with a wider geometry for the stacking
witness. -/
def mmB : MapMaker := ⟨⟨true, 0, 0, 20, 20, some 2⟩, ⟨true, 0, 0, 20, 20, some 2⟩, 1, none⟩

/-- An observation pointing at (2,2) with one event there. -/
def obsL : Observation := ⟨3, ⟨2, 2⟩, [(0, ⟨2, 2⟩)], 1, 1, fun _ _ => 1, fun _ _ => 1⟩

/-- An observation pointing at (10,10), far from `obsL`. -/
def obsR : Observation := ⟨4, ⟨10, 10⟩, [(0, ⟨10, 10⟩)], 1, 1, fun _ _ => 1, fun _ _ => 1⟩

/-- C3 witness: two observations 8 pixels apart with maximum offset 1
have disjoint footprints; the stacked counts value at a pixel is the sum
of the single-observation values, and the doubled run doubles it. -/
theorem C3_witness :
    mmB.run [obsL, obsR] (.listA ["counts"])
        = .ok (mmB.runMaps [obsL, obsR] (.listA ["counts"]))
    ∧ dataAt (mmB.runMaps [obsL, obsR] (.listA ["counts"])) "counts" 0 ⟨2, 2⟩
        = dataAt (mmB.runMaps [obsL] (.listA ["counts"])) "counts" 0 ⟨2, 2⟩
          + dataAt (mmB.runMaps [obsR] (.listA ["counts"])) "counts" 0 ⟨2, 2⟩
    ∧ (dataAt (mmB.runMaps [obsL] (.listA ["counts"])) "counts" 0 ⟨2, 2⟩ = 0
        ∨ dataAt (mmB.runMaps [obsR] (.listA ["counts"])) "counts" 0 ⟨2, 2⟩ = 0)
    ∧ dataAt (mmB.runMaps [obsL, obsL] (.listA ["counts"])) "counts" 0 ⟨2, 2⟩
        = 2 * dataAt (mmB.runMaps [obsL] (.listA ["counts"])) "counts" 0 ⟨2, 2⟩ :=
  C3_additive_stacking mmB ["counts"] obsL obsL obsR "counts" 0 ⟨2, 2⟩
    rfl (by decide) (by decide)

lemma runStep_nilSel (m : MapMaker) (maps : MapSet) (obs : Observation) :
    m.runStep [] maps obs = .ok maps := by
  unfold MapMaker.runStep
  cases h : m.getObsMaker obs .trim with
  | error err =>
    cases err with
    | noOverlap => rfl
    | partOverlap => exact absurd h (getObsMaker_trim_ne_part m obs)
  | ok om => rfl

lemma runLoop_nilSel (m : MapMaker) :
    ∀ (obsList : List Observation) (maps : MapSet),
      m.runLoop [] obsList maps = .ok maps := by
  intro obsList
  induction obsList with
  | nil => intro maps; rfl
  | cons obs rest ih =>
    intro maps
    simp only [MapMaker.runLoop]
    rw [runStep_nilSel]
    exact ih maps

lemma runSel_dup_counts (om : MapMakerObs) :
    (om.runSel ["counts", "counts"]).get "counts" = some om.makeCounts := rfl

lemma runSel_single_counts (om : MapMakerObs) :
    (om.runSel ["counts"]).get "counts" = some om.makeCounts := rfl

lemma stepDelta_dup (m : MapMaker) (obs : Observation) (G : Geom) (U : MUnit)
    (e : Nat) (p : Pos) :
    stepDelta m ["counts", "counts"] obs "counts" G U e p
      = 2 * stepDelta m ["counts"] obs "counts" G U e p := by
  unfold stepDelta
  cases h : m.getObsMaker obs .trim with
  | error err => simp
  | ok om =>
    dsimp only
    unfold contribTerm
    rw [runSel_dup_counts, runSel_single_counts]
    dsimp only
    simp [countName]

/-- C9: selection validation accepts duplicated names and the empty
list; with the empty list `run` returns the empty map set for every
observation list; with a duplicated name each observation's contribution
is accumulated once per occurrence, so the stacked map is exactly twice
the single-occurrence one. -/
theorem C9_duplicate_and_empty_selection (m : MapMaker)
    (obsList : List Observation) (e : Nat) (p : Pos) :
    checkSelection (.listA ["counts", "counts"]) = .ok ["counts", "counts"]
    ∧ checkSelection (.listA []) = .ok []
    ∧ m.run obsList (.listA []) = .ok []
    ∧ m.run obsList (.listA ["counts", "counts"])
        = .ok (m.runMaps obsList (.listA ["counts", "counts"]))
    ∧ dataAt (m.runMaps obsList (.listA ["counts", "counts"])) "counts" e p
        = 2 * dataAt (m.runMaps obsList (.listA ["counts"])) "counts" e p := by
  obtain ⟨hrun2, hdataD⟩ := runMaps_dataAt m ["counts", "counts"] "counts" e p
    rfl (by decide) obsList
  obtain ⟨hrun1, hdata1⟩ := runMaps_dataAt m ["counts"] "counts" e p
    rfl (by decide) obsList
  refine ⟨rfl, rfl, ?_, hrun2, ?_⟩
  · unfold MapMaker.run
    have hcheck : checkSelection (.listA []) = .ok ([] : List String) := rfl
    rw [hcheck]
    dsimp only
    have hA : m.runAux obsList [] = .ok ([] : MapSet) := by
      unfold MapMaker.runAux
      have h0 : m.getEmptyMaps [] = ([] : MapSet) := rfl
      rw [h0]
      exact runLoop_nilSel m obsList []
    rw [hA]
  · rw [hdataD, hdata1]
    have hsum : ∀ L : List Observation,
        (L.map (fun obs => stepDelta m ["counts", "counts"] obs "counts"
          (m.emptyFor "counts").geom (m.emptyFor "counts").unit e p)).sum
        = 2 * (L.map (fun obs => stepDelta m ["counts"] obs "counts"
          (m.emptyFor "counts").geom (m.emptyFor "counts").unit e p)).sum := by
      intro L
      induction L with
      | nil => simp
      | cons x xs ih =>
        rw [List.map_cons, List.map_cons, List.sum_cons, List.sum_cons,
          stepDelta_dup, ih]
        ring
    exact hsum obsList
